import Mathlib

/-
Verification development for the BLE-to-MQTT bridge (ble-mqtt-bridge.py).

The executor, dispatcher and retry logic of the bridge are shallowly
embedded as executable Lean functions.  Python exceptions are modelled as
an explicit error component; the external radio stack (bluepy Peripheral)
is modelled as a record of fallible primitives supplied as a parameter;
MQTT publications are collected as a list of events.  JSON payload fields
that the source parses on arrival (the handle strings parsed with
int(s, 0)) are modelled as the parsed integers.
-/

namespace BLEBridge

/-- Python runtime values, used where the source compares values of
possibly different runtime types: Python `==` between an int and a str,
or between a value and None, is False. -/
inductive PyVal where
  | pynone
  | pyint (n : Int)
  | pystr (s : String)
deriving DecidableEq, Repr

/-- Python `==` on the modelled runtime values. -/
def pyEq : PyVal → PyVal → Bool
  | .pyint a, .pyint b => a == b
  | .pystr a, .pystr b => a == b
  | .pynone, .pynone => true
  | _, _ => false

/-- Lift `Option String` (a str-or-None Python value) into `PyVal`. -/
def pyOfOptStr : Option String → PyVal
  | some s => .pystr s
  | none => .pynone

/-- Lowercase hex rendering of a natural number. -/
def natHex (n : Nat) : String :=
  String.mk (Nat.toDigits 16 n)

/-- Python format spec `{:02x}` applied to an int: lowercase hex,
zero-padded to width 2 (a negative int keeps its sign). -/
def hexFmt02x : Int → String
  | .ofNat n => if (natHex n).length < 2 then "0" ++ natHex n else natHex n
  | .negSucc m => "-" ++ natHex (m + 1)

/-- One entry of a configured characteristic catalog
(config field `characteristics`); `handle` is the value
`int(dev_char.get('handle'), 0)` when the key is present. -/
structure DevChar where
  name : Option String
  uuid : Option String
  handle : Option Int
deriving DecidableEq, Repr

/-- One entry of the `knownDevices` configuration list. -/
structure KnownDevice where
  name : String
  mac : String
  characteristics : Option (List DevChar)
deriving DecidableEq, Repr

/-- The state a `BLEConnection.__init__` call leaves behind:
`_mac`, `_name` and `_deviceInfo`. -/
structure BLEConn where
  mac : String
  name : String
  deviceInfo : Option KnownDevice
deriving DecidableEq, Repr

/-- Python `str.lower()`, modelled characterwise (the identifiers the
bridge lowercases are ASCII mac addresses and alias names). -/
def pyLower (s : String) : String := String.mk (s.data.map Char.toLower)

/-- `BLEConnection.__init__(mac)` (source lines 102-110): scan the
known-device list, the last alias whose name matches case-insensitively
wins; on a match `_mac` is the registered mac lowercased, otherwise the
argument is kept verbatim; `_name` is lowercased in both cases. -/
def bleConnectionInit (knownDevices : List KnownDevice) (mac : String) : BLEConn :=
  let st := knownDevices.foldl
    (fun (acc : String × Option KnownDevice) device =>
      if pyLower mac = pyLower device.name then (pyLower device.mac, some device) else acc)
    (mac, none)
  { mac := st.1
    name := pyLower (match st.2 with | some di => di.name | none => mac)
    deviceInfo := st.2 }

/-- The per-device lock key `'{}_semaphore'.format(self._mac)`
(source line 115). -/
def skey (c : BLEConn) : String := c.mac ++ "_semaphore"

/-- The JSON `value` field of a command: a string or a list of ints. -/
inductive CmdValue where
  | vstr (s : String)
  | vlist (l : List Int)
deriving DecidableEq, Repr

/-- One element of the inbound `commands` array; `handle` is the value
`int(command['handle'], 0)` when the key is present.  For `ignoreError`
only presence matters in the source, but the carried JSON value is kept
so that this can be proved rather than assumed. -/
structure Command where
  action : Option String
  handle : Option Int
  uuid : Option String
  name : Option String
  value : Option CmdValue
  ignoreError : Option Bool
deriving DecidableEq, Repr

/-- Return-topic computation (source lines 143-146), from the fields as
given in the command, before any catalog resolution. -/
def return_topic (handle : Option Int) (uuid name : Option String) : Option String :=
  if (uuid.isSome || handle.isSome) && name.isNone then
    match handle with
    | some h => some (hexFmt02x h)
    | none => uuid
  else name

/-- One iteration of the catalog-resolution loop (source lines 149-158).
The three branches mirror the source: a name match fills handle and uuid;
else a uuid match fills handle and name; else the source compares the
given handle against the catalog entry UUID field
(`handle == dev_char.get('uuid', None)`, an int-vs-str comparison). -/
def resolveChar (acc : Option Int × Option String × Option String) (dc : DevChar) :
    Option Int × Option String × Option String :=
  let handle := acc.1
  let uuid := acc.2.1
  let name := acc.2.2
  if name.isSome && pyEq (pyOfOptStr name) (pyOfOptStr dc.name) then
    (dc.handle, dc.uuid, name)
  else if uuid.isSome && pyEq (pyOfOptStr uuid) (pyOfOptStr dc.uuid) then
    (dc.handle, uuid, dc.name)
  else if (match acc.1 with
           | some h => pyEq (.pyint h) (pyOfOptStr dc.uuid)
           | none => false) then
    (handle, dc.uuid, dc.name)
  else
    (handle, uuid, name)

/-- The whole resolution pass over `self._deviceInfo['characteristics']`
(source line 148-158); a `null` catalog skips the loop. -/
def resolveChars (chars : Option (List DevChar)) (h : Option Int) (u n : Option String) :
    Option Int × Option String × Option String :=
  match chars with
  | none => (h, u, n)
  | some cs => cs.foldl resolveChar (h, u, n)

/-- A characteristic object returned by `Peripheral.getCharacteristics`:
its `read()` and `write(value, withResponse)` methods, fallible. -/
structure UuidChar where
  read : Except String (List Nat)
  write : List Nat → Bool → Except String Unit

/-- The bluepy `Peripheral` session: the device primitives the executor
calls, each of which may raise. -/
structure Peripheral where
  readCharacteristic : Int → Except String (List Nat)
  writeCharacteristic : Int → List Nat → Bool → Except String Unit
  getCharacteristics : String → Except String (List UuidChar)
  disconnect : Except String Unit

/-- Encoding of a command `value` (source lines 166-169): a str is
UTF-8 encoded, a list is passed to `bytes(...)`, which raises for an
element outside 0..255. -/
def encodeValue : CmdValue → Except String (List Nat)
  | .vstr s => .ok (s.toUTF8.toList.map (fun b => b.toNat))
  | .vlist l =>
      if l.all (fun x => 0 ≤ x && x < 256) then
        .ok (l.map Int.toNat)
      else
        .error "ValueError: bytes must be in range(0, 256)"

/-- The two loop-carried locals of the command loop: the `results` dict
(insertion-ordered) and the `value` local, absent until first bound. -/
structure LoopSt where
  results : List (Option String × List Nat)
  value : Option (List Nat)
deriving DecidableEq, Repr

/-- Python dict assignment `m[k] = v`: overwrite in place, else append. -/
def dictSet (m : List (Option String × List Nat)) (k : Option String) (v : List Nat) :
    List (Option String × List Nat) :=
  match m with
  | [] => [(k, v)]
  | (k2, v2) :: t => if k2 = k then (k, v) :: t else (k2, v2) :: dictSet t k v

/-- `for c in p.getCharacteristics(uuid=uuid): results[rt] = [int(x) for x in c.read()]`
(source lines 185-187); an exception keeps the updates already made. -/
def readByUuidLoop (rt : Option String) (st : LoopSt) :
    List UuidChar → LoopSt × Option String
  | [] => (st, none)
  | c :: rest =>
    match c.read with
    | .ok bs => readByUuidLoop rt { st with results := dictSet st.results rt bs } rest
    | .error e => (st, some e)

/-- `for c in p.getCharacteristics(uuid=uuid): c.write(value, True)`
(source lines 177-179); referencing the never-bound `value` local raises
NameError, but only once the loop body runs at least once. -/
def writeByUuidLoop (st : LoopSt) : List UuidChar → LoopSt × Option String
  | [] => (st, none)
  | c :: rest =>
    match st.value with
    | none => (st, some "NameError: name value is not defined")
    | some v =>
      match c.write v true with
      | .ok _ => writeByUuidLoop st rest
      | .error e => (st, some e)

/-- The body of the inner `try` (source lines 172-187): dispatch on the
action and on which of handle/uuid survived resolution.  Returns the
updated loop state and the raised exception, if any. -/
def runAction (p : Peripheral) (action : String) (handle : Option Int)
    (uuid : Option String) (rt : Option String) (st : LoopSt) : LoopSt × Option String :=
  if action = "writeCharacteristic" then
    match handle with
    | some h =>
      match st.value with
      | none => (st, some "NameError: name value is not defined")
      | some v =>
        match p.writeCharacteristic h v true with
        | .ok _ => (st, none)
        | .error e => (st, some e)
    | none =>
      match uuid with
      | some u =>
        match p.getCharacteristics u with
        | .ok cs => writeByUuidLoop st cs
        | .error e => (st, some e)
      | none => (st, none)
  else if action = "readCharacteristic" then
    match handle with
    | some h =>
      match p.readCharacteristic h with
      | .ok bs => ({ st with results := dictSet st.results rt bs }, none)
      | .error e => (st, some e)
    | none =>
      match uuid with
      | some u =>
        match p.getCharacteristics u with
        | .ok cs => readByUuidLoop rt st cs
        | .error e => (st, some e)
      | none => (st, none)
  else (st, none)

/-- The `value` update of one command (source lines 164-169), performed
before the inner try, so its failure is never absorbed by ignoreError. -/
def valueUpd (cmd : Command) (st : LoopSt) : Except String LoopSt :=
  match cmd.value with
  | some v => (encodeValue v).map fun bs => { st with value := some bs }
  | none => .ok st

/-- Processing of one element of the command list (source lines 129-191):
skip without an action key; compute the return topic from the given
fields; dereference `self._deviceInfo['characteristics']` (raising if
`_deviceInfo` is None); run the resolution loop; record ignoreError by
key presence; bind `value` if given; then run the action inside the
try whose handler re-raises unless the ignoreError key was present. -/
def process_command (deviceInfo : Option KnownDevice) (p : Peripheral)
    (cmd : Command) (st : LoopSt) : LoopSt × Option String :=
  match cmd.action with
  | none => (st, none)
  | some action =>
    let rt := return_topic cmd.handle cmd.uuid cmd.name
    match deviceInfo with
    | none => (st, some "TypeError: NoneType object is not subscriptable")
    | some di =>
      let res := resolveChars di.characteristics cmd.handle cmd.uuid cmd.name
      let ignoreError := cmd.ignoreError.isSome
      match valueUpd cmd st with
      | .error e => (st, some e)
      | .ok stv =>
        match runAction p action res.1 res.2.1 rt stv with
        | (st2, none) => (st2, none)
        | (st2, some e) => if ignoreError then (st2, none) else (st2, some e)

/-- The command loop (source line 128): commands run strictly in order,
the first propagated exception aborts the remaining commands. -/
def run_commands (deviceInfo : Option KnownDevice) (p : Peripheral) :
    List Command → LoopSt → LoopSt × Option String
  | [], st => (st, none)
  | cmd :: rest, st =>
    match process_command deviceInfo p cmd st with
    | (st2, none) => run_commands deviceInfo p rest st2
    | (st2, some e) => (st2, some e)

/-- Abstract MQTT payloads: the JSON array of one read result, the JSON
object of the whole results dict, or an error string. -/
inductive Payload where
  | jsonArr (l : List Nat)
  | jsonObj (entries : List (Option String × List Nat))
  | errMsg (s : String)
deriving DecidableEq, Repr

/-- One `client.publish` call made by `process_commands`. -/
structure PubEvent where
  topic : String
  payload : Payload
  retain : Bool
deriving DecidableEq, Repr

/-- The publication made by the outer exception handler
(source line 204): not retained. -/
def errPub (e : String) : PubEvent :=
  { topic := "ble/process_commands/error", payload := .errMsg e, retain := false }

/-- Rendering of a results key into the data topic (a None key would
print as "None"). -/
def keyStr : Option String → String
  | some s => s
  | none => "None"

/-- The `args` object of the inbound payload. -/
structure Args where
  combineResponsesToTopic : Option String
deriving DecidableEq, Repr

/-- `BLEConnection.process_commands` (source lines 112-205): connect,
run the command loop, then on full success publish either the combined
JSON object retained, or one retained publish per results entry, and
disconnect; any exception escaping to the outer handler produces exactly
one publication to the error topic and nothing else.  `connect` models
`Peripheral(self._mac)`. -/
def process_commands (conn : BLEConn)
    (connect : String → Except String Peripheral)
    (command_list : List Command) (argument_list : Args) : List PubEvent :=
  match connect conn.mac with
  | .error e => [errPub e]
  | .ok p =>
    match run_commands conn.deviceInfo p command_list { results := [], value := none } with
    | (_, some e) => [errPub e]
    | (fin, none) =>
      let dataPubs :=
        match argument_list.combineResponsesToTopic with
        | some t =>
          [{ topic := "ble/" ++ conn.name ++ "/data/" ++ t
             payload := .jsonObj fin.results
             retain := true }]
        | none =>
          fin.results.map (fun kv =>
            ({ topic := "ble/" ++ conn.name ++ "/data/" ++ keyStr kv.1
               payload := .jsonArr kv.2
               retain := true } : PubEvent))
      match p.disconnect with
      | .ok _ => dataPubs
      | .error e => dataPubs ++ [errPub e]

/-- The decoded JSON payload of a device-command message:
`commands` is None when the key is missing (its access then raises
KeyError inside the dispatcher try), `args` defaults to empty. -/
structure BatchData where
  commands : Option (List Command)
  args : Args
  tries : Option Int
deriving DecidableEq, Repr

/-- The device branch of `CommandThread.process_message`
(source lines 262-279): build the BLEConnection, run
`process_commands` on `data['commands']`; only an exception raised by
that inner block reaches the retry check, which re-publishes the
message with `tries` decremented when `tries > 1`.  The result is the
list of publications plus the re-submitted payload, if any.
`process_commands` catches every exception itself, so in this model the
only raising access is the `data['commands']` lookup. -/
def process_device_message (knownDevices : List KnownDevice)
    (connect : String → Except String Peripheral) (segment : String)
    (data : BatchData) : List PubEvent × Option BatchData :=
  match data.commands with
  | none =>
    (match data.tries with
     | some t => if t > 1 then ([], some { data with tries := some (t - 1) }) else ([], none)
     | none => ([], none))
  | some cmds =>
    (process_commands (bleConnectionInit knownDevices segment) connect cmds data.args, none)

/-- Iterate the dispatcher on a message and its automatic
re-submissions, counting how many re-submissions occur before the
message is dropped.  Fuel bounds the iteration (the tries budget is
finite). -/
def count_resubmissions (knownDevices : List KnownDevice)
    (connect : String → Except String Peripheral) (segment : String) :
    Nat → BatchData → Nat
  | 0, _ => 0
  | fuel + 1, data =>
    match (process_device_message knownDevices connect segment data).2 with
    | some d2 => 1 + count_resubmissions knownDevices connect segment fuel d2
    | none => 0

/-
Lock manager model (C8).  The source keeps one `Semaphore()` per device
address in the global dict `ble_dev_map`, guarded by `ble_map_lock`.
The scan branch of `CommandThread.process_message` (source lines
240-258) acquires the map lock, acquires every semaphore currently in
the map one by one, runs the scan, and in its `finally` re-acquires the
map lock and releases every semaphore in the map.  The device path
(source lines 115-119) creates the semaphore for its address under the
map lock, then acquires it for the duration of the batch.  Semaphores
are modelled as counters exactly as Python: acquire blocks until the
count is positive and decrements, release unconditionally increments.
-/

/-- Program counter of a device-batch thread: before the map-lock
section, inside it (creating its semaphore), waiting on its semaphore,
holding it (the batch runs), finished. -/
inductive DevPC where
  | entry
  | creating
  | waiting
  | crit
  | done
deriving DecidableEq, Repr

/-- One device-batch unit of work: its (already lock-key normalised)
address and its program counter. -/
structure DevT where
  addr : String
  pc : DevPC
deriving DecidableEq, Repr

/-- Program counter of the single scan unit of work: not yet started,
acquiring the snapshot semaphores, scanning (all held), map lock
released after the with-block, finally block holding the map lock
again, finished. -/
inductive ScanPC where
  | idle
  | acq
  | scanning
  | unwound
  | relAll
  | fin
deriving DecidableEq, Repr

/-- Global state: the map lock, the semaphore map (key, counter) in
insertion order, the snapshot taken when the scan reached the map, how
many snapshot members the scan has acquired, the scan pc, and the
device threads. -/
structure Sys where
  mapLock : Bool
  sems : List (String × Nat)
  snapshot : List String
  scanK : Nat
  scanPC : ScanPC
  devs : List DevT
deriving DecidableEq, Repr

/-- Counter of the semaphore for `a` (0 when absent). -/
def semCount : List (String × Nat) → String → Nat
  | [], _ => 0
  | (k, v) :: t, a => if k = a then v else semCount t a

/-- Whether a semaphore for `a` exists in the map. -/
def semHas : List (String × Nat) → String → Bool
  | [], _ => false
  | (k, _) :: t, a => if k = a then true else semHas t a

/-- Set the counter of the (first) semaphore for `a`. -/
def semUpd : List (String × Nat) → String → Nat → List (String × Nat)
  | [], _, _ => []
  | (k, v) :: t, a, n => if k = a then (a, n) :: t else (k, v) :: semUpd t a n

/-- `if skey not in ble_dev_map: ble_dev_map[skey] = Semaphore()`. -/
def semInsert (sems : List (String × Nat)) (a : String) : List (String × Nat) :=
  if semHas sems a then sems else sems ++ [(a, 1)]

/-- The release-everything loop of the scan finally block. -/
def semIncAll (sems : List (String × Nat)) : List (String × Nat) :=
  sems.map (fun p => (p.1, p.2 + 1))

/-- Keys of the semaphore map. -/
def semKeys (sems : List (String × Nat)) : List String :=
  sems.map Prod.fst

/-- Interleaving semantics of the lock usage: each constructor is one
atomic step of one unit of work, enabled only when its blocking
condition is satisfied. -/
inductive Step : Sys → Sys → Prop
  | devMapAcq (s : Sys) (l r : List DevT) (a : String) :
      s.mapLock = false → s.devs = l ++ ⟨a, .entry⟩ :: r →
      Step s { s with mapLock := true, devs := l ++ ⟨a, .creating⟩ :: r }
  | devCreate (s : Sys) (l r : List DevT) (a : String) :
      s.devs = l ++ ⟨a, .creating⟩ :: r →
      Step s { s with mapLock := false, sems := semInsert s.sems a, devs := l ++ ⟨a, .waiting⟩ :: r }
  | devAcq (s : Sys) (l r : List DevT) (a : String) :
      s.devs = l ++ ⟨a, .waiting⟩ :: r → 0 < semCount s.sems a →
      Step s { s with sems := semUpd s.sems a (semCount s.sems a - 1), devs := l ++ ⟨a, .crit⟩ :: r }
  | devRel (s : Sys) (l r : List DevT) (a : String) :
      s.devs = l ++ ⟨a, .crit⟩ :: r →
      Step s { s with sems := semUpd s.sems a (semCount s.sems a + 1), devs := l ++ ⟨a, .done⟩ :: r }
  | scanStart (s : Sys) :
      s.scanPC = .idle → s.mapLock = false →
      Step s { s with mapLock := true, scanPC := .acq, snapshot := semKeys s.sems, scanK := 0 }
  | scanAcqOne (s : Sys) (a : String) :
      s.scanPC = .acq → s.snapshot.get? s.scanK = some a → 0 < semCount s.sems a →
      Step s { s with sems := semUpd s.sems a (semCount s.sems a - 1), scanK := s.scanK + 1 }
  | scanEnter (s : Sys) :
      s.scanPC = .acq → s.scanK = s.snapshot.length →
      Step s { s with scanPC := .scanning }
  | scanExit (s : Sys) :
      s.scanPC = .scanning →
      Step s { s with mapLock := false, scanPC := .unwound }
  | scanFinAcq (s : Sys) :
      s.scanPC = .unwound → s.mapLock = false →
      Step s { s with mapLock := true, scanPC := .relAll }
  | scanRelease (s : Sys) :
      s.scanPC = .relAll →
      Step s { s with sems := semIncAll s.sems, scanK := 0, mapLock := false, scanPC := .fin }

/-- Reachability in zero or more steps. -/
inductive Reach (s0 : Sys) : Sys → Prop
  | refl : Reach s0 s0
  | tail {s t : Sys} : Reach s0 s → Step s t → Reach s0 t

/-- The process start state: empty semaphore map, no scan, every
device unit of work not yet started. -/
def initSys (ds : List String) : Sys :=
  { mapLock := false, sems := [], snapshot := [], scanK := 0,
    scanPC := .idle, devs := ds.map (fun a => ⟨a, .entry⟩) }

/-- Number of device threads currently holding the semaphore for `a`. -/
def critCount : List DevT → String → Nat
  | [], _ => 0
  | d :: t, a => (if d.addr = a ∧ d.pc = .crit then 1 else 0) + critCount t a

/-- 1 when the scan currently holds the snapshot member `a`. -/
def heldN (s : Sys) (a : String) : Nat :=
  if a ∈ s.snapshot.take s.scanK then 1 else 0

/-- Total ownership accounting of the semaphore for `a`: free permits
plus device holders plus the scan holder. -/
def owners (s : Sys) (a : String) : Nat :=
  semCount s.sems a + critCount s.devs a + heldN s a

/-- The scan has completed its composite acquisition and has not yet
released it. -/
def scanHoldsAll (s : Sys) : Prop :=
  (s.scanPC = .acq ∨ s.scanPC = .scanning ∨ s.scanPC = .unwound ∨ s.scanPC = .relAll)
    ∧ s.scanK = s.snapshot.length

/-
Concrete fixtures used by the claim theorems and witnesses.
-/

/-- A connect primitive that fails on every attempt. -/
def failConnect : String → Except String Peripheral :=
  fun _ => .error "connect failed"

/-- A catalog entry carrying all three reference fields. -/
def batteryChar : DevChar :=
  { name := some "battery", uuid := some "u1", handle := some 0x2a19 }

/-- A read command addressed purely by handle. -/
def readByHandleCmd (h : Int) : Command :=
  { action := some "readCharacteristic", handle := some h,
    uuid := none, name := none, value := none, ignoreError := none }

/-- A device batch with a retry budget of 3. -/
def c1Batch : BatchData :=
  { commands := some [readByHandleCmd 42], args := { combineResponsesToTopic := none },
    tries := some 3 }

/-- C1: the claim states that a device batch with tries = 3 whose
execution fails on every attempt is re-submitted exactly twice.  On the
code it is re-submitted zero times: `process_commands` catches every
execution failure itself and publishes to the error topic, so the
dispatcher never sees an exception for any payload whose `commands` key
is present, and the retry block is dead for executor failures.  The
theorem evaluates the dispatcher at such a failing batch: zero
re-submissions, one error publication; the final conjunct shows no
re-submission ever happens once the `commands` key is present,
whatever the connect primitive, commands, args or tries. -/
theorem c1_executor_failures_never_resubmitted :
    count_resubmissions [] failConnect "aa:bb:cc:dd:ee:01" 10 c1Batch = 0 ∧
    (process_device_message [] failConnect "aa:bb:cc:dd:ee:01" c1Batch).1
      = [errPub "connect failed"] ∧
    (∀ (kd : List KnownDevice) (connect : String → Except String Peripheral)
       (seg : String) (cmds : List Command) (args : Args) (tries : Option Int),
      (process_device_message kd connect seg
        { commands := some cmds, args := args, tries := tries }).2 = none) := by
  refine ⟨rfl, rfl, fun kd connect seg cmds args tries => rfl⟩

/-- C2: the claim states that specs referencing the same catalog entry
by name, by uuid or by handle all resolve to the identical canonical
triple.  Resolution by name and by uuid indeed agree, but the handle
branch of the source compares the given handle against the catalog
entry UUID (`handle == dev_char.get('uuid', None)`), an int-vs-str
comparison that is always false, so a handle-only spec resolves to
(handle, None, None), not to the canonical triple.  The final conjunct
isolates the mechanism: the comparison is false for every handle and
every catalog uuid field. -/
theorem c2_handle_resolution_never_matches :
    resolveChars (some [batteryChar]) none none (some "battery")
      = (some 0x2a19, some "u1", some "battery") ∧
    resolveChars (some [batteryChar]) none (some "u1") none
      = (some 0x2a19, some "u1", some "battery") ∧
    resolveChars (some [batteryChar]) (some 0x2a19) none none
      = (some 0x2a19, none, none) ∧
    ((some 0x2a19, none, none) : Option Int × Option String × Option String)
      ≠ (some 0x2a19, some "u1", some "battery") ∧
    (∀ (h : Int) (u : Option String), pyEq (.pyint h) (pyOfOptStr u) = false) := by
  refine ⟨by decide, by decide, by decide, by decide, fun h u => ?_⟩
  cases u <;> rfl

/-- A peripheral on which every primitive succeeds. -/
def okPeripheral : Peripheral :=
  { readCharacteristic := fun _ => .ok [1]
    writeCharacteristic := fun _ _ _ => .ok ()
    getCharacteristics := fun _ => .ok []
    disconnect := .ok () }

/-- C7: the claim states that a commands topic segment matching no
registry alias falls back to executing the batch against the literal
address.  On the code the fallback connection is indeed attempted, but
`_deviceInfo` is then None and every command carrying an action
dereferences `self._deviceInfo['characteristics']`, raising TypeError:
the batch is aborted with an error publication before any command runs,
even against a peripheral whose primitives all succeed. -/
theorem c7_literal_address_batch_aborts :
    (bleConnectionInit [] "f0:0d:00:00:00:02").deviceInfo = none ∧
    (bleConnectionInit [] "f0:0d:00:00:00:02").mac = "f0:0d:00:00:00:02" ∧
    process_commands (bleConnectionInit [] "f0:0d:00:00:00:02")
        (fun _ => .ok okPeripheral) [readByHandleCmd 1]
        { combineResponsesToTopic := none }
      = [errPub "TypeError: NoneType object is not subscriptable"] := by
  refine ⟨rfl, rfl, rfl⟩

/-
Distinctness of the results keys: Python dict keys are unique, and the
executor only ever writes `results` through dict assignment.
-/

/-- Membership in the keys after a dict assignment. -/
theorem mem_keys_dictSet (m : List (Option String × List Nat)) (k : Option String)
    (v : List Nat) (b : Option String) :
    b ∈ (dictSet m k v).map Prod.fst ↔ b = k ∨ b ∈ m.map Prod.fst := by
  induction m with
  | nil => simp [dictSet]
  | cons kv t ih =>
    obtain ⟨k2, v2⟩ := kv
    by_cases h : k2 = k
    · subst h
      simp [dictSet]
    · simp only [dictSet, if_neg h, List.map_cons, List.mem_cons, ih]
      tauto

/-- Dict assignment preserves distinctness of the keys. -/
theorem nodup_keys_dictSet (m : List (Option String × List Nat)) (k : Option String)
    (v : List Nat) (hm : (m.map Prod.fst).Nodup) :
    ((dictSet m k v).map Prod.fst).Nodup := by
  induction m with
  | nil => simp [dictSet]
  | cons kv t ih =>
    obtain ⟨k2, v2⟩ := kv
    simp only [List.map_cons, List.nodup_cons] at hm
    by_cases h : k2 = k
    · subst h
      simpa [dictSet] using hm
    · simp only [dictSet, if_neg h, List.map_cons, List.nodup_cons]
      refine ⟨fun hmem => ?_, ih hm.2⟩
      rcases (mem_keys_dictSet t k v k2).mp hmem with h1 | h1
      · exact h h1
      · exact hm.1 h1

/-- The uuid-write loop never touches the results dict. -/
theorem writeByUuidLoop_results (st : LoopSt) (cs : List UuidChar) :
    (writeByUuidLoop st cs).1.results = st.results := by
  induction cs with
  | nil => rfl
  | cons c rest ih =>
    simp only [writeByUuidLoop]
    split
    · rfl
    · split
      · exact ih
      · rfl

/-- The uuid-read loop preserves distinctness of the results keys. -/
theorem readByUuidLoop_nodup (rt : Option String) (cs : List UuidChar) (st : LoopSt)
    (hm : (st.results.map Prod.fst).Nodup) :
    (((readByUuidLoop rt st cs).1.results).map Prod.fst).Nodup := by
  induction cs generalizing st with
  | nil => exact hm
  | cons c rest ih =>
    simp only [readByUuidLoop]
    split
    · exact ih _ (nodup_keys_dictSet _ _ _ hm)
    · exact hm

/-- One action preserves distinctness of the results keys. -/
theorem runAction_nodup (p : Peripheral) (a : String) (h : Option Int)
    (u : Option String) (rt : Option String) (st : LoopSt)
    (hm : (st.results.map Prod.fst).Nodup) :
    (((runAction p a h u rt st).1.results).map Prod.fst).Nodup := by
  unfold runAction
  split
  · split
    · split
      · exact hm
      · split
        · exact hm
        · exact hm
    · split
      · split
        · rw [writeByUuidLoop_results]
          exact hm
        · exact hm
      · exact hm
  · split
    · split
      · split
        · exact nodup_keys_dictSet _ _ _ hm
        · exact hm
      · split
        · split
          · exact readByUuidLoop_nodup _ _ _ hm
          · exact hm
        · exact hm
    · exact hm

/-- A successful value binding leaves the results dict unchanged. -/
theorem valueUpd_results (cmd : Command) (st stv : LoopSt)
    (h : valueUpd cmd st = .ok stv) : stv.results = st.results := by
  cases hcv : cmd.value with
  | none =>
    simp only [valueUpd, hcv] at h
    injection h with h2
    rw [← h2]
  | some v =>
    simp only [valueUpd, hcv] at h
    cases he : encodeValue v with
    | ok bs =>
      rw [he] at h
      simp only [Except.map] at h
      injection h with h2
      rw [← h2]
    | error e =>
      rw [he] at h
      simp [Except.map] at h

/-- Processing one command preserves distinctness of the results keys. -/
theorem process_command_nodup (deviceInfo : Option KnownDevice) (p : Peripheral)
    (cmd : Command) (st : LoopSt) (hm : (st.results.map Prod.fst).Nodup) :
    (((process_command deviceInfo p cmd st).1.results).map Prod.fst).Nodup := by
  cases hcA : cmd.action with
  | none => simpa [process_command, hcA] using hm
  | some a =>
    cases hcd : deviceInfo with
    | none => simpa [process_command, hcA] using hm
    | some di =>
      simp only [process_command, hcA]
      cases hv : valueUpd cmd st with
      | error e => simpa using hm
      | ok stv =>
        have hstv : (stv.results.map Prod.fst).Nodup := by
          rw [valueUpd_results cmd st stv hv]
          exact hm
        have hrun := runAction_nodup p a
          (resolveChars di.characteristics cmd.handle cmd.uuid cmd.name).1
          (resolveChars di.characteristics cmd.handle cmd.uuid cmd.name).2.1
          (return_topic cmd.handle cmd.uuid cmd.name) stv hstv
        cases hR : runAction p a
          (resolveChars di.characteristics cmd.handle cmd.uuid cmd.name).1
          (resolveChars di.characteristics cmd.handle cmd.uuid cmd.name).2.1
          (return_topic cmd.handle cmd.uuid cmd.name) stv with
        | mk st2 exc =>
          rw [hR] at hrun
          simp only [hR]
          cases exc with
          | none => exact hrun
          | some e =>
            by_cases hig : cmd.ignoreError.isSome
            · simpa [hig] using hrun
            · simpa [hig] using hrun

/-- The command loop preserves distinctness of the results keys. -/
theorem run_commands_nodup (deviceInfo : Option KnownDevice) (p : Peripheral)
    (cmds : List Command) (st : LoopSt) (hm : (st.results.map Prod.fst).Nodup) :
    (((run_commands deviceInfo p cmds st).1.results).map Prod.fst).Nodup := by
  induction cmds generalizing st with
  | nil => exact hm
  | cons cmd rest ih =>
    have h1 := process_command_nodup deviceInfo p cmd st hm
    simp only [run_commands]
    cases hc : process_command deviceInfo p cmd st with
    | mk st2 exc =>
      rw [hc] at h1
      cases exc with
      | none => exact ih st2 h1
      | some e => exact h1

/-- C3: if any spec of the batch raises an error that is not absorbed by
ignoreError (so the command loop aborts with a propagated exception),
then the whole batch publishes exactly one event, to the error topic:
no data publication happens at all, neither combined nor per key, even
though results of earlier successful specs are sitting in the loop
state. -/
theorem c3_no_data_publish_on_failure
    (conn : BLEConn) (connect : String → Except String Peripheral) (p : Peripheral)
    (cmds : List Command) (args : Args) (st2 : LoopSt) (e : String)
    (hc : connect conn.mac = .ok p)
    (hr : run_commands conn.deviceInfo p cmds { results := [], value := none }
            = (st2, some e)) :
    process_commands conn connect cmds args = [errPub e] := by
  simp [process_commands, hc, hr]

/-- A peripheral whose handle-1 read succeeds and every other primitive
fails. -/
def okFailPeripheral : Peripheral :=
  { readCharacteristic := fun h => if h = 1 then .ok [90] else .error "read failure"
    writeCharacteristic := fun _ _ _ => .error "write failure"
    getCharacteristics := fun _ => .error "no characteristics"
    disconnect := .ok () }

/-- A registered device with an empty catalog. -/
def sensorDevice : KnownDevice :=
  { name := "livingroom_sensor", mac := "f0:0d:00:00:00:01", characteristics := some [] }

/-- The connection state for the registered sensor. -/
def sensorConn : BLEConn := bleConnectionInit [sensorDevice] "livingroom_sensor"

/-- Witness for C3: a two-spec batch whose first read succeeds (its
result is stored internally under key "01") and whose second read
fails; the batch publishes only the error event. -/
theorem c3_no_data_publish_on_failure_witness :
    run_commands sensorConn.deviceInfo okFailPeripheral
        [readByHandleCmd 1, readByHandleCmd 2] { results := [], value := none }
      = ({ results := [(some "01", [90])], value := none }, some "read failure") ∧
    process_commands sensorConn (fun _ => .ok okFailPeripheral)
        [readByHandleCmd 1, readByHandleCmd 2] { combineResponsesToTopic := none }
      = [errPub "read failure"] := by
  constructor
  · rfl
  · exact c3_no_data_publish_on_failure sensorConn (fun _ => .ok okFailPeripheral)
      okFailPeripheral [readByHandleCmd 1, readByHandleCmd 2]
      { combineResponsesToTopic := none }
      { results := [(some "01", [90])], value := none } "read failure" rfl rfl

/-- C5: on a batch whose command loop finishes without a propagated
error and whose disconnect succeeds, the results keys are pairwise
distinct, and: with combineResponsesToTopic set, the batch makes
exactly one publish, retained, to the combined topic, whose payload is
the JSON object holding every result entry; with it unset, the batch
makes exactly one retained publish per result entry, under that entry's
own topic. -/
theorem c5_publish_shape
    (conn : BLEConn) (connect : String → Except String Peripheral) (p : Peripheral)
    (cmds : List Command) (args : Args) (finSt : LoopSt)
    (hc : connect conn.mac = .ok p)
    (hr : run_commands conn.deviceInfo p cmds { results := [], value := none }
            = (finSt, none))
    (hd : p.disconnect = .ok ()) :
    (finSt.results.map Prod.fst).Nodup ∧
    (∀ t, args.combineResponsesToTopic = some t →
      process_commands conn connect cmds args
        = [{ topic := "ble/" ++ conn.name ++ "/data/" ++ t
             payload := .jsonObj finSt.results
             retain := true }]) ∧
    (args.combineResponsesToTopic = none →
      process_commands conn connect cmds args
        = finSt.results.map (fun kv =>
            { topic := "ble/" ++ conn.name ++ "/data/" ++ keyStr kv.1
              payload := .jsonArr kv.2
              retain := true }) ∧
      (process_commands conn connect cmds args).length = finSt.results.length ∧
      (∀ ev ∈ process_commands conn connect cmds args, ev.retain = true)) := by
  have hnd : (finSt.results.map Prod.fst).Nodup := by
    have h0 := run_commands_nodup conn.deviceInfo p cmds
      { results := [], value := none } (by simp)
    rw [hr] at h0
    exact h0
  refine ⟨hnd, ?_, ?_⟩
  · intro t ht
    simp [process_commands, hc, hr, hd, ht]
  · intro ht
    have heq : process_commands conn connect cmds args
        = finSt.results.map (fun kv =>
            ({ topic := "ble/" ++ conn.name ++ "/data/" ++ keyStr kv.1
               payload := .jsonArr kv.2
               retain := true } : PubEvent)) := by
      simp [process_commands, hc, hr, hd, ht]
    refine ⟨heq, ?_, ?_⟩
    · rw [heq, List.length_map]
    · intro ev hev
      rw [heq] at hev
      obtain ⟨kv, _, rfl⟩ := List.mem_map.mp hev
      rfl

/-- A peripheral on which reading handle h yields the byte h. -/
def echoPeripheral : Peripheral :=
  { readCharacteristic := fun h => .ok [h.toNat]
    writeCharacteristic := fun _ _ _ => .ok ()
    getCharacteristics := fun _ => .ok []
    disconnect := .ok () }

/-- Witness for C5: a fully successful two-read batch, once with the
combined topic set (one retained publish carrying both keys) and once
without (two retained publishes, one per key). -/
theorem c5_publish_shape_witness :
    process_commands sensorConn (fun _ => .ok echoPeripheral)
        [readByHandleCmd 1, readByHandleCmd 2]
        { combineResponsesToTopic := some "all" }
      = [{ topic := "ble/livingroom_sensor/data/all"
           payload := .jsonObj [(some "01", [1]), (some "02", [2])]
           retain := true }] ∧
    process_commands sensorConn (fun _ => .ok echoPeripheral)
        [readByHandleCmd 1, readByHandleCmd 2]
        { combineResponsesToTopic := none }
      = [{ topic := "ble/livingroom_sensor/data/01"
           payload := .jsonArr [1], retain := true },
         { topic := "ble/livingroom_sensor/data/02"
           payload := .jsonArr [2], retain := true }] := by
  constructor
  · rw [(c5_publish_shape sensorConn (fun _ => .ok echoPeripheral) echoPeripheral
      [readByHandleCmd 1, readByHandleCmd 2] { combineResponsesToTopic := some "all" }
      { results := [(some "01", [1]), (some "02", [2])], value := none }
      rfl rfl rfl).2.1 "all" rfl]
    rfl
  · rw [((c5_publish_shape sensorConn (fun _ => .ok echoPeripheral) echoPeripheral
      [readByHandleCmd 1, readByHandleCmd 2] { combineResponsesToTopic := none }
      { results := [(some "01", [1]), (some "02", [2])], value := none }
      rfl rfl rfl).2.2 rfl).1]
    rfl

/-- Return-topic key as claim C4 words it: computed from the reference
triple as it stands AFTER catalog resolution (resolved name first, then
hex handle, then uuid).  This is the spec reading, kept separate so it
can be compared with `return_topic`, which the source computes from the
caller-given fields before resolution. -/
def claimedReturnTopic (resolved : Option Int × Option String × Option String) :
    Option String :=
  match resolved.2.2 with
  | some s => some s
  | none =>
    match resolved.1 with
    | some hh => some (hexFmt02x hh)
    | none => resolved.2.1

/-- A registered device whose catalog holds the battery entry. -/
def batteryDevice : KnownDevice :=
  { name := "sensor", mac := "f0:0d:00:00:00:01", characteristics := some [batteryChar] }

/-- A read command addressed purely by uuid. -/
def readByUuidCmd : Command :=
  { action := some "readCharacteristic", handle := none, uuid := some "u1",
    name := none, value := none, ignoreError := none }

/-- A peripheral whose reads return the byte 90. -/
def ninetyPeripheral : Peripheral :=
  { readCharacteristic := fun _ => .ok [90]
    writeCharacteristic := fun _ _ _ => .ok ()
    getCharacteristics := fun _ => .ok []
    disconnect := .ok () }

/-- C4 counterexample: a spec giving only the uuid of the battery entry.
Resolution finds the name "battery", and the claim therefore demands
the key "battery"; the code stores the result under the given uuid
"u1", because the key is computed before resolution runs. -/
theorem c4_counterexample :
    (run_commands (some batteryDevice) ninetyPeripheral [readByUuidCmd]
        { results := [], value := none }).1.results = [(some "u1", [90])] ∧
    claimedReturnTopic (resolveChars (some [batteryChar]) none (some "u1") none)
      = some "battery" ∧
    (some "u1" : Option String) ≠ some "battery" := by
  refine ⟨rfl, rfl, by decide⟩

/-- C4 as amended: the return-topic key is computed from the fields the
caller gave, before catalog resolution, with priority given name, then
hex of the given handle, then the given uuid; a successful read stores
its bytes under exactly that key even when resolution has replaced the
handle actually read. -/
theorem c4_return_topic_pre_resolution
    (di : KnownDevice) (p : Peripheral) (cmd : Command) (st : LoopSt)
    (hr : Int) (bs : List Nat)
    (ha : cmd.action = some "readCharacteristic")
    (hv : cmd.value = none)
    (hres : (resolveChars di.characteristics cmd.handle cmd.uuid cmd.name).1 = some hr)
    (hread : p.readCharacteristic hr = .ok bs) :
    process_command (some di) p cmd st
      = ({ st with results :=
             dictSet st.results (return_topic cmd.handle cmd.uuid cmd.name) bs }, none) ∧
    (∀ (h : Option Int) (u n : Option String),
      return_topic h u n
        = match n with
          | some s => some s
          | none =>
            match h with
            | some hh => some (hexFmt02x hh)
            | none => u) := by
  constructor
  · simp [process_command, ha, valueUpd, hv, runAction, hres, hread]
  · intro h u n
    cases n with
    | some s => simp [return_topic]
    | none =>
      cases h with
      | some hh => simp [return_topic]
      | none =>
        cases u with
        | some uu => simp [return_topic]
        | none => simp [return_topic]

/-- Witness for the amended C4: the uuid-only battery read stores its
result under the uuid key even though the read itself went through the
resolved handle. -/
theorem c4_return_topic_pre_resolution_witness :
    process_command (some batteryDevice) ninetyPeripheral readByUuidCmd
        { results := [], value := none }
      = ({ results := [(some "u1", [90])], value := none }, none) :=
  (c4_return_topic_pre_resolution batteryDevice ninetyPeripheral readByUuidCmd
    { results := [], value := none } 0x2a19 [90] rfl rfl rfl rfl).1

/-- The alias fold of `BLEConnection.__init__` keeps the accumulator
verbatim when it ends with no match. -/
theorem aliasFold_none (seg : String) (kd : List KnownDevice)
    (acc : String × Option KnownDevice)
    (h : (kd.foldl (fun acc2 device =>
        if pyLower seg = pyLower device.name then (pyLower device.mac, some device)
        else acc2) acc).2 = none) :
    kd.foldl (fun acc2 device =>
        if pyLower seg = pyLower device.name then (pyLower device.mac, some device)
        else acc2) acc = acc := by
  induction kd generalizing acc with
  | nil => rfl
  | cons x t ih =>
    simp only [List.foldl_cons] at h ⊢
    have h3 := ih _ h
    rw [h3] at h ⊢
    by_cases hx : pyLower seg = pyLower x.name
    · rw [if_pos hx] at h
      simp at h
    · rw [if_neg hx]

/-- The alias fold of `BLEConnection.__init__` pairs a matched device
with its lowercased registered mac. -/
theorem aliasFold_some (seg : String) (kd : List KnownDevice)
    (acc : String × Option KnownDevice)
    (hacc : ∀ d, acc.2 = some d → acc.1 = pyLower d.mac) :
    ∀ d, (kd.foldl (fun acc2 device =>
        if pyLower seg = pyLower device.name then (pyLower device.mac, some device)
        else acc2) acc).2 = some d →
      (kd.foldl (fun acc2 device =>
        if pyLower seg = pyLower device.name then (pyLower device.mac, some device)
        else acc2) acc).1 = pyLower d.mac := by
  induction kd generalizing acc with
  | nil => exact hacc
  | cons x t ih =>
    intro d hd
    simp only [List.foldl_cons] at hd ⊢
    refine ih _ ?_ d hd
    intro d2 hd2
    by_cases hx : pyLower seg = pyLower x.name
    · rw [if_pos hx] at hd2 ⊢
      injection hd2 with h2
      rw [← h2]
    · rw [if_neg hx] at hd2 ⊢
      exact hacc d2 hd2

/-- C6 counterexample: a topic segment in upper case that matches no
registry alias.  The connection keeps the segment verbatim as `_mac`,
so both the lock key and the address handed to the connect primitive
keep the upper-case spelling; only `_name` is lowercased. -/
theorem c6_counterexample :
    (bleConnectionInit [] "AA:BB:CC:DD:EE:FF").mac = "AA:BB:CC:DD:EE:FF" ∧
    skey (bleConnectionInit [] "AA:BB:CC:DD:EE:FF") = "AA:BB:CC:DD:EE:FF_semaphore" ∧
    pyLower (bleConnectionInit [] "AA:BB:CC:DD:EE:FF").mac
      ≠ (bleConnectionInit [] "AA:BB:CC:DD:EE:FF").mac ∧
    (bleConnectionInit [] "AA:BB:CC:DD:EE:FF").name = "aa:bb:cc:dd:ee:ff" := by
  refine ⟨rfl, rfl, by decide, rfl⟩

/-- C6 as amended: when the segment matches a registry alias, `_mac` is
the registered mac lowercased (so lock key and connect address are
lowercase); when no alias matches, the segment is used verbatim with
its original casing as lock key and connect address; the display name
`_name` is lowercased in both cases, and the lock key is always
`_mac + "_semaphore"`. -/
theorem c6_lowercase_only_via_registry (kd : List KnownDevice) (seg : String) :
    ((bleConnectionInit kd seg).deviceInfo = none →
      (bleConnectionInit kd seg).mac = seg ∧
      (bleConnectionInit kd seg).name = pyLower seg) ∧
    (∀ d, (bleConnectionInit kd seg).deviceInfo = some d →
      (bleConnectionInit kd seg).mac = pyLower d.mac ∧
      (bleConnectionInit kd seg).name = pyLower d.name) ∧
    skey (bleConnectionInit kd seg) = (bleConnectionInit kd seg).mac ++ "_semaphore" := by
  refine ⟨?_, ?_, rfl⟩
  · intro h
    simp only [bleConnectionInit] at h ⊢
    have h2 := aliasFold_none seg kd (seg, none) h
    rw [h2]
    rw [h2] at h
    exact ⟨rfl, rfl⟩
  · intro d hd
    simp only [bleConnectionInit] at hd ⊢
    constructor
    · exact aliasFold_some seg kd (seg, none) (by intro d2 hd2; simp at hd2) d hd
    · rw [hd]

/-- A registered alias whose configured name and mac carry upper-case
letters. -/
def upperSensor : KnownDevice :=
  { name := "Sensor", mac := "F0:0D:00:00:00:01", characteristics := none }

/-- Witness for the amended C6: the unmatched upper-case segment keeps
its casing, while a registered alias is normalised through the
registry. -/
theorem c6_lowercase_only_via_registry_witness :
    ((bleConnectionInit [] "AA:BB").mac = "AA:BB" ∧
      (bleConnectionInit [] "AA:BB").name = pyLower "AA:BB") ∧
    ((bleConnectionInit [upperSensor] "SENSOR").mac = pyLower "F0:0D:00:00:00:01" ∧
      (bleConnectionInit [upperSensor] "SENSOR").name = pyLower "Sensor") :=
  ⟨(c6_lowercase_only_via_registry [] "AA:BB").1 rfl,
   (c6_lowercase_only_via_registry [upperSensor] "SENSOR").2.1 upperSensor rfl⟩

/-- The uuid-read loop never touches the `value` local. -/
theorem readByUuidLoop_value (rt : Option String) (cs : List UuidChar) (st : LoopSt) :
    (readByUuidLoop rt st cs).1.value = st.value := by
  induction cs generalizing st with
  | nil => rfl
  | cons c rest ih =>
    simp only [readByUuidLoop]
    split
    · exact ih _
    · rfl

/-- The uuid-write loop returns the loop state unchanged. -/
theorem writeByUuidLoop_fst (st : LoopSt) (cs : List UuidChar) :
    (writeByUuidLoop st cs).1 = st := by
  induction cs with
  | nil => rfl
  | cons c rest ih =>
    simp only [writeByUuidLoop]
    split
    · rfl
    · split
      · exact ih
      · rfl

/-- Running an action never touches the `value` local. -/
theorem runAction_value (p : Peripheral) (a : String) (h : Option Int)
    (u : Option String) (rt : Option String) (st : LoopSt) :
    (runAction p a h u rt st).1.value = st.value := by
  unfold runAction
  split
  · split
    · split
      · rfl
      · split
        · rfl
        · rfl
    · split
      · split
        · rw [writeByUuidLoop_fst]
        · rfl
      · rfl
  · split
    · split
      · split
        · rfl
        · rfl
      · split
        · split
          · exact readByUuidLoop_value _ _ _
          · rfl
        · rfl
    · rfl

/-- A command that carries no `value` key leaves the `value` local
unchanged, whatever it does: the local is loop-carried across the
whole batch. -/
theorem process_command_value (deviceInfo : Option KnownDevice) (p : Peripheral)
    (cmd : Command) (st : LoopSt) (hv : cmd.value = none) :
    ((process_command deviceInfo p cmd st).1).value = st.value := by
  cases hcA : cmd.action with
  | none => simp [process_command, hcA]
  | some a =>
    cases deviceInfo with
    | none => simp [process_command, hcA]
    | some di =>
      simp only [process_command, hcA]
      simp only [valueUpd, hv]
      have hrv := runAction_value p a
        (resolveChars di.characteristics cmd.handle cmd.uuid cmd.name).1
        (resolveChars di.characteristics cmd.handle cmd.uuid cmd.name).2.1
        (return_topic cmd.handle cmd.uuid cmd.name) st
      cases hR : runAction p a
        (resolveChars di.characteristics cmd.handle cmd.uuid cmd.name).1
        (resolveChars di.characteristics cmd.handle cmd.uuid cmd.name).2.1
        (return_topic cmd.handle cmd.uuid cmd.name) st with
      | mk st2 exc =>
        rw [hR] at hrv
        cases exc with
        | none => simpa using hrv
        | some e =>
          by_cases hig : cmd.ignoreError.isSome
          · simpa [hig] using hrv
          · simpa [hig] using hrv

/-- C9: whether a failed operation is skipped or aborts the batch is
decided purely by the PRESENCE of the ignoreError key: any carried
value, including false, suppresses the failure, and only the complete
absence of the key lets the failure propagate.  The hypotheses pin the
run of the spec: its action, a successful value binding, and a failing
action run. -/
theorem c9_ignore_error_presence_only
    (di : KnownDevice) (p : Peripheral) (cmd : Command) (st stv st2 : LoopSt)
    (a e : String)
    (ha : cmd.action = some a)
    (hstv : valueUpd cmd st = .ok stv)
    (hfail : runAction p a
        (resolveChars di.characteristics cmd.handle cmd.uuid cmd.name).1
        (resolveChars di.characteristics cmd.handle cmd.uuid cmd.name).2.1
        (return_topic cmd.handle cmd.uuid cmd.name) stv = (st2, some e)) :
    process_command (some di) p { cmd with ignoreError := none } st = (st2, some e) ∧
    (∀ b : Bool,
      process_command (some di) p { cmd with ignoreError := some b } st = (st2, none)) := by
  obtain ⟨ac, hdl, uu, nm, vl, ig⟩ := cmd
  have ha2 : ac = some a := ha
  subst ha2
  simp only [valueUpd] at hstv
  cases vl with
  | none =>
    dsimp only at hstv hfail
    have hst : st = stv := by injection hstv
    subst hst
    constructor
    · simp [process_command, valueUpd, hfail]
    · intro b
      simp [process_command, valueUpd, hfail]
  | some v =>
    dsimp only at hstv hfail
    constructor
    · simp [process_command, valueUpd, hstv, hfail]
    · intro b
      simp [process_command, valueUpd, hstv, hfail]

/-- A spec whose read fails against `okFailPeripheral` (handle 2). -/
def failingReadCmd : Command := readByHandleCmd 2

/-- Witness for C9: the failing read propagates its error without the
ignoreError key, and is skipped identically with the key set to false
and to true. -/
theorem c9_ignore_error_presence_only_witness :
    process_command (some sensorDevice) okFailPeripheral
        { failingReadCmd with ignoreError := none }
        { results := [], value := none }
      = ({ results := [], value := none }, some "read failure") ∧
    process_command (some sensorDevice) okFailPeripheral
        { failingReadCmd with ignoreError := some false }
        { results := [], value := none }
      = ({ results := [], value := none }, none) ∧
    process_command (some sensorDevice) okFailPeripheral
        { failingReadCmd with ignoreError := some true }
        { results := [], value := none }
      = ({ results := [], value := none }, none) :=
  ⟨(c9_ignore_error_presence_only sensorDevice okFailPeripheral failingReadCmd
      { results := [], value := none } { results := [], value := none }
      { results := [], value := none } "readCharacteristic" "read failure"
      rfl rfl rfl).1,
   (c9_ignore_error_presence_only sensorDevice okFailPeripheral failingReadCmd
      { results := [], value := none } { results := [], value := none }
      { results := [], value := none } "readCharacteristic" "read failure"
      rfl rfl rfl).2 false,
   (c9_ignore_error_presence_only sensorDevice okFailPeripheral failingReadCmd
      { results := [], value := none } { results := [], value := none }
      { results := [], value := none } "readCharacteristic" "read failure"
      rfl rfl rfl).2 true⟩

/-- A write spec that carries no value and no ignoreError key. -/
def writeNoValueCmd : Command :=
  { action := some "writeCharacteristic", handle := some 5, uuid := none,
    name := none, value := none, ignoreError := none }

/-- A write spec addressed by uuid, with no value and no ignoreError. -/
def writeByUuidNoValueCmd : Command :=
  { action := some "writeCharacteristic", handle := none, uuid := some "u9",
    name := none, value := none, ignoreError := none }

/-- A characteristic object whose read and write both succeed. -/
def demoChar : UuidChar :=
  { read := .ok [1]
    write := fun _ _ => .ok () }

/-- A peripheral whose uuid lookup returns exactly one characteristic. -/
def oneCharPeripheral : Peripheral :=
  { readCharacteristic := fun _ => .ok [1]
    writeCharacteristic := fun _ _ _ => .ok ()
    getCharacteristics := fun _ => .ok [demoChar]
    disconnect := .ok () }

/-- C10 counterexample: the claim says a write spec with no value and
no earlier value-bearing spec aborts the batch with an unbound-variable
error.  Two divergences: (1) with the ignoreError key present the
NameError is swallowed like any other operation failure and the batch
continues, the following read still running; (2) a uuid-addressed
valueless write whose getCharacteristics call returns no entries never
references the value local at all, raises nothing, and the batch
continues even though the spec has no ignoreError key.  Only the
handle-addressed, ignoreError-free spec does abort with the NameError. -/
theorem c10_counterexample :
    run_commands (some sensorDevice) echoPeripheral
        [{ writeNoValueCmd with ignoreError := some false }, readByHandleCmd 1]
        { results := [], value := none }
      = ({ results := [(some "01", [1])], value := none }, none) ∧
    run_commands (some sensorDevice) echoPeripheral
        [writeByUuidNoValueCmd, readByHandleCmd 1]
        { results := [], value := none }
      = ({ results := [(some "01", [1])], value := none }, none) ∧
    process_command (some sensorDevice) echoPeripheral writeNoValueCmd
        { results := [], value := none }
      = ({ results := [], value := none },
         some "NameError: name value is not defined") := by
  refine ⟨rfl, rfl, rfl⟩

/-- With a bound value and all per-characteristic writes succeeding,
the uuid-write loop completes without error. -/
theorem writeByUuidLoop_ok (st : LoopSt) (v : List Nat) (hv : st.value = some v) :
    ∀ cs : List UuidChar, (∀ c ∈ cs, c.write v true = .ok ()) →
      writeByUuidLoop st cs = (st, none) := by
  intro cs
  induction cs with
  | nil => intro _; rfl
  | cons c rest ih =>
    intro h
    simp only [writeByUuidLoop, hv]
    rw [h c (List.mem_cons_self _ _)]
    exact ih (fun c2 hc2 => h c2 (List.mem_cons_of_mem _ hc2))

/-- C10 as amended: the encoded `value` is a loop-carried local.  For a
write spec without a value key: addressed by handle, it (i) writes the
value bound by the most recent earlier value-bearing spec when one
exists, (ii) aborts the batch with the unbound-variable NameError when
no value was ever bound and the spec has no ignoreError key, and (iii)
is skipped, the batch continuing, when the key is present.  Addressed
by uuid, it (iv) writes the carried value to every characteristic
found, (v) raises nothing at all when getCharacteristics returns no
entries, the batch continuing even without ignoreError, and with at
least one entry and no bound value it (vi) aborts with the NameError
without ignoreError and (vii) is skipped with it.  In the unbound
cases the conclusion holds for every peripheral behaviour of the write
primitives, so no write is ever issued; and (viii) any spec without a
value key leaves the `value` local untouched, so the binding carries
across intervening specs. -/
theorem c10_value_loop_carried
    (di : KnownDevice) (p : Peripheral) (cmd : Command) (st : LoopSt)
    (ha : cmd.action = some "writeCharacteristic")
    (hv : cmd.value = none) :
    (∀ hr : Int,
      (resolveChars di.characteristics cmd.handle cmd.uuid cmd.name).1 = some hr →
      ((∀ v : List Nat, st.value = some v → p.writeCharacteristic hr v true = .ok () →
          process_command (some di) p cmd st = (st, none)) ∧
       (st.value = none → cmd.ignoreError = none →
          process_command (some di) p cmd st
            = (st, some "NameError: name value is not defined")) ∧
       (st.value = none → ∀ b, cmd.ignoreError = some b →
          process_command (some di) p cmd st = (st, none)))) ∧
    (∀ u : String,
      (resolveChars di.characteristics cmd.handle cmd.uuid cmd.name).1 = none →
      (resolveChars di.characteristics cmd.handle cmd.uuid cmd.name).2.1 = some u →
      ((∀ (v : List Nat) (cs : List UuidChar), st.value = some v →
          p.getCharacteristics u = .ok cs → (∀ c ∈ cs, c.write v true = .ok ()) →
          process_command (some di) p cmd st = (st, none)) ∧
       (p.getCharacteristics u = .ok [] →
          process_command (some di) p cmd st = (st, none)) ∧
       (∀ (c : UuidChar) (cs : List UuidChar), st.value = none →
          p.getCharacteristics u = .ok (c :: cs) → cmd.ignoreError = none →
          process_command (some di) p cmd st
            = (st, some "NameError: name value is not defined")) ∧
       (∀ (c : UuidChar) (cs : List UuidChar), st.value = none →
          p.getCharacteristics u = .ok (c :: cs) → ∀ b, cmd.ignoreError = some b →
          process_command (some di) p cmd st = (st, none)))) ∧
    (∀ (di2 : Option KnownDevice) (cmd2 : Command) (st0 : LoopSt),
      cmd2.value = none → ((process_command di2 p cmd2 st0).1).value = st0.value) := by
  refine ⟨?_, ?_, ?_⟩
  · intro hr hres
    refine ⟨?_, ?_, ?_⟩
    · intro v hsv hw
      simp [process_command, ha, valueUpd, hv, runAction, hres, hsv, hw]
    · intro hsv hig
      simp [process_command, ha, valueUpd, hv, runAction, hres, hsv, hig]
    · intro hsv b hig
      simp [process_command, ha, valueUpd, hv, runAction, hres, hsv, hig]
  · intro u hres1 hres2
    refine ⟨?_, ?_, ?_, ?_⟩
    · intro v cs hsv hgc hall
      have hwl := writeByUuidLoop_ok st v hsv cs hall
      simp [process_command, ha, valueUpd, hv, runAction, hres1, hres2, hgc, hwl]
    · intro hgc
      simp [process_command, ha, valueUpd, hv, runAction, hres1, hres2, hgc,
        writeByUuidLoop]
    · intro c cs hsv hgc hig
      simp [process_command, ha, valueUpd, hv, runAction, hres1, hres2, hgc,
        writeByUuidLoop, hsv, hig]
    · intro c cs hsv hgc b hig
      simp [process_command, ha, valueUpd, hv, runAction, hres1, hres2, hgc,
        writeByUuidLoop, hsv, hig]
  · intro di2 cmd2 st0 hv2
    exact process_command_value di2 p cmd2 st0 hv2

/-- Witness for the amended C10: the handle write re-uses the bytes
bound by an earlier spec, aborts unbound without ignoreError, and is
skipped with it; the uuid write re-uses the carried bytes on a found
characteristic, succeeds vacuously when none is found, and aborts
unbound when one is found. -/
theorem c10_value_loop_carried_witness :
    process_command (some sensorDevice) echoPeripheral writeNoValueCmd
        { results := [], value := some [1, 2] }
      = ({ results := [], value := some [1, 2] }, none) ∧
    process_command (some sensorDevice) echoPeripheral writeNoValueCmd
        { results := [], value := none }
      = ({ results := [], value := none },
         some "NameError: name value is not defined") ∧
    process_command (some sensorDevice) echoPeripheral
        { writeNoValueCmd with ignoreError := some false }
        { results := [], value := none }
      = ({ results := [], value := none }, none) ∧
    process_command (some sensorDevice) oneCharPeripheral writeByUuidNoValueCmd
        { results := [], value := some [1, 2] }
      = ({ results := [], value := some [1, 2] }, none) ∧
    process_command (some sensorDevice) echoPeripheral writeByUuidNoValueCmd
        { results := [], value := none }
      = ({ results := [], value := none }, none) ∧
    process_command (some sensorDevice) oneCharPeripheral writeByUuidNoValueCmd
        { results := [], value := none }
      = ({ results := [], value := none },
         some "NameError: name value is not defined") :=
  ⟨((c10_value_loop_carried sensorDevice echoPeripheral writeNoValueCmd
      { results := [], value := some [1, 2] } rfl rfl).1 5 rfl).1 [1, 2] rfl rfl,
   ((c10_value_loop_carried sensorDevice echoPeripheral writeNoValueCmd
      { results := [], value := none } rfl rfl).1 5 rfl).2.1 rfl rfl,
   ((c10_value_loop_carried sensorDevice echoPeripheral
      { writeNoValueCmd with ignoreError := some false }
      { results := [], value := none } rfl rfl).1 5 rfl).2.2 rfl false rfl,
   ((c10_value_loop_carried sensorDevice oneCharPeripheral writeByUuidNoValueCmd
      { results := [], value := some [1, 2] } rfl rfl).2.1 "u9" rfl rfl).1 [1, 2]
      [demoChar] rfl rfl
      (by intro c hc; rw [List.mem_singleton] at hc; subst hc; rfl),
   ((c10_value_loop_carried sensorDevice echoPeripheral writeByUuidNoValueCmd
      { results := [], value := none } rfl rfl).2.1 "u9" rfl rfl).2.1 rfl,
   ((c10_value_loop_carried sensorDevice oneCharPeripheral writeByUuidNoValueCmd
      { results := [], value := none } rfl rfl).2.1 "u9" rfl rfl).2.2.1 demoChar []
      rfl rfl rfl⟩

/-
Semaphore map lemmas for the lock-manager model.
-/

/-- semHas is membership in the key list. -/
theorem semHas_iff_mem (sems : List (String × Nat)) (a : String) :
    semHas sems a = true ↔ a ∈ semKeys sems := by
  induction sems with
  | nil => simp [semHas, semKeys]
  | cons kv t ih =>
    obtain ⟨k, v⟩ := kv
    by_cases h : k = a
    · subst h
      simp [semHas, semKeys]
    · simp [semHas, semKeys, h, ih]
      tauto

/-- Updating an existing key sets its counter. -/
theorem semCount_upd_self (sems : List (String × Nat)) (a : String) (n : Nat)
    (h : semHas sems a = true) : semCount (semUpd sems a n) a = n := by
  induction sems with
  | nil => simp [semHas] at h
  | cons kv t ih =>
    obtain ⟨k, v⟩ := kv
    by_cases hk : k = a
    · subst hk
      simp [semUpd, semCount]
    · simp only [semHas, if_neg hk] at h
      simp [semUpd, semCount, hk, ih h]

/-- Updating key `a` leaves every other counter alone. -/
theorem semCount_upd_other (sems : List (String × Nat)) (a b : String) (n : Nat)
    (h : b ≠ a) : semCount (semUpd sems a n) b = semCount sems b := by
  induction sems with
  | nil => rfl
  | cons kv t ih =>
    obtain ⟨k, v⟩ := kv
    by_cases hk : k = a
    · subst hk
      simp [semUpd, semCount, Ne.symm h]
    · by_cases hb : k = b
      · subst hb
        simp [semUpd, semCount, hk]
      · simp [semUpd, semCount, hk, hb, ih]

/-- Updating a counter does not change the key list. -/
theorem semKeys_upd (sems : List (String × Nat)) (a : String) (n : Nat) :
    semKeys (semUpd sems a n) = semKeys sems := by
  induction sems with
  | nil => rfl
  | cons kv t ih =>
    obtain ⟨k, v⟩ := kv
    by_cases hk : k = a
    · subst hk
      simp [semUpd, semKeys]
    · simp [semUpd, semKeys, hk]
      exact ih

/-- Updating a counter does not change key membership. -/
theorem semHas_upd (sems : List (String × Nat)) (a b : String) (n : Nat) :
    semHas (semUpd sems a n) b = semHas sems b := by
  rcases hb : semHas sems b with _ | _
  · by_contra hc
    simp only [Bool.not_eq_false] at hc
    rw [semHas_iff_mem, semKeys_upd, ← semHas_iff_mem] at hc
    rw [hb] at hc
    cases hc
  · rw [semHas_iff_mem, semKeys_upd, ← semHas_iff_mem]
    exact hb

/-- Inserting a key that is already present does nothing. -/
theorem semInsert_of_has (sems : List (String × Nat)) (a : String)
    (h : semHas sems a = true) : semInsert sems a = sems := by
  simp [semInsert, h]

/-- Counter of an absent key after appending it. -/
theorem semCount_append_absent (sems : List (String × Nat)) (a : String) (n : Nat)
    (h : semHas sems a = false) : semCount (sems ++ [(a, n)]) a = n := by
  induction sems with
  | nil => simp [semCount]
  | cons kv t ih =>
    obtain ⟨k, v⟩ := kv
    simp only [semHas] at h
    by_cases hk : k = a
    · simp [hk] at h
    · simp only [if_neg hk] at h
      simp [semCount, hk, ih h]

/-- Appending a fresh key leaves other counters alone. -/
theorem semCount_append_other (sems : List (String × Nat)) (a b : String) (n : Nat)
    (h : b ≠ a) : semCount (sems ++ [(a, n)]) b = semCount sems b := by
  induction sems with
  | nil => simp [semCount, Ne.symm h]
  | cons kv t ih =>
    obtain ⟨k, v⟩ := kv
    by_cases hb : k = b
    · simp [semCount, hb]
    · simp [semCount, hb, ih]

/-- A freshly inserted semaphore has one permit. -/
theorem semCount_insert_self (sems : List (String × Nat)) (a : String)
    (h : semHas sems a = false) : semCount (semInsert sems a) a = 1 := by
  simp only [semInsert, h, if_false, Bool.false_eq_true]
  exact semCount_append_absent sems a 1 h

/-- Inserting key `a` leaves every other counter alone. -/
theorem semCount_insert_other (sems : List (String × Nat)) (a b : String)
    (h : b ≠ a) : semCount (semInsert sems a) b = semCount sems b := by
  by_cases hh : semHas sems a
  · simp [semInsert, hh]
  · simp only [semInsert, hh, if_false, Bool.false_eq_true]
    exact semCount_append_other sems a b 1 h

/-- Key list after appending a fresh key. -/
theorem semKeys_append (sems : List (String × Nat)) (a : String) (n : Nat) :
    semKeys (sems ++ [(a, n)]) = semKeys sems ++ [a] := by
  simp [semKeys]

/-- Key membership after an insert. -/
theorem semHas_insert_iff (sems : List (String × Nat)) (a b : String) :
    semHas (semInsert sems a) b = true ↔ (b = a ∨ semHas sems b = true) := by
  by_cases hh : semHas sems a = true
  · simp only [semInsert, hh, if_true]
    constructor
    · intro h2
      exact Or.inr h2
    · rintro (rfl | h2)
      · exact hh
      · exact h2
  · simp only [Bool.not_eq_true] at hh
    simp only [semInsert, hh, if_false, Bool.false_eq_true]
    rw [semHas_iff_mem, semKeys_append, semHas_iff_mem]
    simp [List.mem_append]
    tauto

/-- Key list after an update-all. -/
theorem semKeys_incAll (sems : List (String × Nat)) :
    semKeys (semIncAll sems) = semKeys sems := by
  induction sems with
  | nil => rfl
  | cons kv t ih =>
    obtain ⟨k, v⟩ := kv
    simp [semIncAll, semKeys]

/-- Key membership survives an update-all. -/
theorem semHas_incAll (sems : List (String × Nat)) (a : String) :
    semHas (semIncAll sems) a = semHas sems a := by
  rcases hb : semHas sems a with _ | _
  · by_contra hc
    simp only [Bool.not_eq_false] at hc
    rw [semHas_iff_mem, semKeys_incAll, ← semHas_iff_mem, hb] at hc
    cases hc
  · rw [semHas_iff_mem, semKeys_incAll, ← semHas_iff_mem]
    exact hb

/-- The scan release loop increments every present counter. -/
theorem semCount_incAll (sems : List (String × Nat)) (a : String)
    (h : semHas sems a = true) : semCount (semIncAll sems) a = semCount sems a + 1 := by
  induction sems with
  | nil => simp [semHas] at h
  | cons kv t ih =>
    obtain ⟨k, v⟩ := kv
    by_cases hk : k = a
    · subst hk
      simp [semIncAll, semCount]
    · simp only [semHas, if_neg hk] at h
      simp [semIncAll, semCount, hk]
      exact ih h

/-
Accounting lemmas for device threads and the scan hold set.
-/

/-- critCount distributes over append. -/
theorem critCount_append (l r : List DevT) (a : String) :
    critCount (l ++ r) a = critCount l a + critCount r a := by
  induction l with
  | nil => simp [critCount]
  | cons d t ih => simp [critCount, ih, Nat.add_assoc]

/-- critCount of a list with a distinguished middle element. -/
theorem critCount_middle (l r : List DevT) (d : DevT) (a : String) :
    critCount (l ++ d :: r) a
      = critCount l a + ((if d.addr = a ∧ d.pc = .crit then 1 else 0) + critCount r a) := by
  rw [critCount_append]
  rfl

/-- A positive critCount exhibits a holding device. -/
theorem critCount_pos (devs : List DevT) (a : String) (h : 0 < critCount devs a) :
    ∃ d ∈ devs, d.addr = a ∧ d.pc = DevPC.crit := by
  induction devs with
  | nil => simp [critCount] at h
  | cons d t ih =>
    by_cases hd : d.addr = a ∧ d.pc = DevPC.crit
    · exact ⟨d, List.mem_cons_self _ _, hd⟩
    · simp only [critCount, if_neg hd, Nat.zero_add] at h
      obtain ⟨d2, hd2, hp⟩ := ih h
      exact ⟨d2, List.mem_cons_of_mem _ hd2, hp⟩

/-- An absent key has a zero counter. -/
theorem semCount_absent (sems : List (String × Nat)) (a : String)
    (h : semHas sems a = false) : semCount sems a = 0 := by
  induction sems with
  | nil => rfl
  | cons kv t ih =>
    obtain ⟨k, v⟩ := kv
    simp only [semHas] at h
    by_cases hk : k = a
    · simp [hk] at h
    · simp only [if_neg hk] at h
      simp [semCount, hk, ih h]

/-- Membership in one more taken element. -/
theorem mem_take_succ (l : List String) (k : Nat) (a b : String)
    (hk : l.get? k = some a) : b ∈ l.take (k + 1) ↔ b ∈ l.take k ∨ b = a := by
  rw [List.take_succ]
  rw [List.get?_eq_getElem?] at hk
  rw [hk]
  simp

/-- In a duplicate-free list the element at position k is not among the
first k elements. -/
theorem not_mem_take_of_nodup (l : List String) (k : Nat) (a : String)
    (hnd : l.Nodup) (hk : l.get? k = some a) : a ∉ l.take k := by
  rcases List.get?_eq_some.mp hk with ⟨hlt, hget⟩
  intro hmem
  have h1 : l.take k ++ l.drop k = l := List.take_append_drop k l
  rw [← h1] at hnd
  rw [List.drop_eq_getElem_cons hlt] at hnd
  have hdisj := List.disjoint_of_nodup_append hnd
  refine hdisj hmem ?_
  rw [List.get_eq_getElem] at hget
  rw [hget]
  exact List.mem_cons_self _ _

/-- Inductive invariant of the lock model. -/
structure Inv (s : Sys) : Prop where
  kBound : s.scanK ≤ s.snapshot.length
  kZero : s.scanPC = .idle ∨ s.scanPC = .fin → s.scanK = 0
  kFull : s.scanPC = .scanning ∨ s.scanPC = .unwound ∨ s.scanPC = .relAll →
      s.scanK = s.snapshot.length
  snapKeys : s.scanPC ≠ .idle → ∀ a ∈ s.snapshot, semHas s.sems a = true
  keysNodup : (semKeys s.sems).Nodup
  snapNodup : s.snapshot.Nodup
  devSem : ∀ d ∈ s.devs, (d.pc = .waiting ∨ d.pc = .crit) → semHas s.sems d.addr = true
  ownersMain : s.scanPC ≠ .fin → ∀ a, semHas s.sems a = true → owners s a = 1
  ownersFin : s.scanPC = .fin → ∀ a ∈ s.snapshot, owners s a = 1

/-- The invariant holds in the start state. -/
theorem inv_init (ds : List String) : Inv (initSys ds) := by
  refine { kBound := Nat.le_refl 0, kZero := fun _ => rfl, kFull := ?_, snapKeys := ?_,
           keysNodup := List.nodup_nil, snapNodup := List.nodup_nil, devSem := ?_,
           ownersMain := ?_, ownersFin := ?_ }
  · intro h
    rcases h with h | h | h <;> exact ScanPC.noConfusion h
  · intro h
    exact absurd rfl h
  · intro d hd hpc
    simp only [initSys, List.mem_map] at hd
    obtain ⟨a, _, rfl⟩ := hd
    rcases hpc with h | h <;> exact DevPC.noConfusion h
  · intro _ a hhas
    simp [semHas] at hhas
  · intro h
    exact ScanPC.noConfusion h

/-- owners only depends on the semaphore map, the device threads and
the scan hold set. -/
theorem owners_eq (s t : Sys) (b : String)
    (hsem : semCount t.sems b = semCount s.sems b)
    (hcrit : critCount t.devs b = critCount s.devs b)
    (hsnap : t.snapshot = s.snapshot) (hk : t.scanK = s.scanK) :
    owners t b = owners s b := by
  simp only [owners, heldN, hsem, hcrit, hsnap, hk]

/-- One step preserves the invariant. -/
theorem inv_step (s t : Sys) (hs : Inv s) (h : Step s t) : Inv t := by
  cases h with
  | devMapAcq l r a hml hdevs =>
    have hcc : ∀ b, critCount (l ++ (⟨a, .creating⟩ : DevT) :: r) b = critCount s.devs b := by
      intro b
      rw [hdevs, critCount_middle, critCount_middle]
      simp
    refine { kBound := hs.kBound, kZero := hs.kZero, kFull := hs.kFull,
             snapKeys := hs.snapKeys, keysNodup := hs.keysNodup,
             snapNodup := hs.snapNodup, devSem := ?_, ownersMain := ?_, ownersFin := ?_ }
    · intro d hd hpc
      rcases List.mem_append.mp hd with hdl | hdr
      · exact hs.devSem d (by rw [hdevs]; exact List.mem_append_left _ hdl) hpc
      · rcases List.mem_cons.mp hdr with rfl | hdr2
        · rcases hpc with h1 | h1 <;> exact DevPC.noConfusion h1
        · exact hs.devSem d
            (by rw [hdevs]; exact List.mem_append_right _ (List.mem_cons_of_mem _ hdr2)) hpc
    · intro hfin b hb
      exact (owners_eq s { s with mapLock := true, devs := l ++ (⟨a, .creating⟩ : DevT) :: r }
        b rfl (hcc b) rfl rfl).trans (hs.ownersMain hfin b hb)
    · intro hfin b hb
      exact (owners_eq s { s with mapLock := true, devs := l ++ (⟨a, .creating⟩ : DevT) :: r }
        b rfl (hcc b) rfl rfl).trans (hs.ownersFin hfin b hb)
  | devCreate l r a hdevs =>
    have hcc : ∀ b, critCount (l ++ (⟨a, .waiting⟩ : DevT) :: r) b = critCount s.devs b := by
      intro b
      rw [hdevs, critCount_middle, critCount_middle]
      simp
    have hdevSem : ∀ d ∈ l ++ (⟨a, .waiting⟩ : DevT) :: r,
        (d.pc = .waiting ∨ d.pc = .crit) → semHas (semInsert s.sems a) d.addr = true := by
      intro d hd hpc
      rcases List.mem_append.mp hd with hdl | hdr
      · exact (semHas_insert_iff s.sems a d.addr).mpr (Or.inr
          (hs.devSem d (by rw [hdevs]; exact List.mem_append_left _ hdl) hpc))
      · rcases List.mem_cons.mp hdr with rfl | hdr2
        · exact (semHas_insert_iff s.sems a a).mpr (Or.inl rfl)
        · exact (semHas_insert_iff s.sems a d.addr).mpr (Or.inr (hs.devSem d
            (by rw [hdevs]; exact List.mem_append_right _ (List.mem_cons_of_mem _ hdr2)) hpc))
    have hsnapKeys : s.scanPC ≠ .idle → ∀ b ∈ s.snapshot,
        semHas (semInsert s.sems a) b = true := by
      intro hni b hb
      exact (semHas_insert_iff s.sems a b).mpr (Or.inr (hs.snapKeys hni b hb))
    by_cases hhas : semHas s.sems a = true
    · rw [semInsert_of_has s.sems a hhas] at hdevSem hsnapKeys ⊢
      refine { kBound := hs.kBound, kZero := hs.kZero, kFull := hs.kFull,
               snapKeys := hsnapKeys, keysNodup := hs.keysNodup,
               snapNodup := hs.snapNodup, devSem := hdevSem,
               ownersMain := ?_, ownersFin := ?_ }
      · intro hfin b hb
        exact (owners_eq s
          { s with mapLock := false, sems := s.sems, devs := l ++ (⟨a, .waiting⟩ : DevT) :: r }
          b rfl (hcc b) rfl rfl).trans (hs.ownersMain hfin b hb)
      · intro hfin b hb
        exact (owners_eq s
          { s with mapLock := false, sems := s.sems, devs := l ++ (⟨a, .waiting⟩ : DevT) :: r }
          b rfl (hcc b) rfl rfl).trans (hs.ownersFin hfin b hb)
    · have hfalse : semHas s.sems a = false := by rwa [Bool.not_eq_true] at hhas
      have hNotHeld : heldN s a = 0 := by
        by_cases hpc : s.scanPC = .idle
        · simp [heldN, hs.kZero (Or.inl hpc)]
        · have hnm : a ∉ s.snapshot.take s.scanK := by
            intro hmem
            have h2 := hs.snapKeys hpc a (List.take_subset _ _ hmem)
            rw [hfalse] at h2
            cases h2
          simp [heldN, hnm]
      have hcrit0 : critCount s.devs a = 0 := by
        by_contra hc
        obtain ⟨d, hd, ha2, hp⟩ := critCount_pos s.devs a (Nat.pos_of_ne_zero hc)
        have h2 := hs.devSem d hd (Or.inr hp)
        rw [ha2, hfalse] at h2
        cases h2
      have hins : semInsert s.sems a = s.sems ++ [(a, 1)] := by
        simp [semInsert, hfalse]
      refine { kBound := hs.kBound, kZero := hs.kZero, kFull := hs.kFull,
               snapKeys := hsnapKeys, keysNodup := ?_,
               snapNodup := hs.snapNodup, devSem := hdevSem,
               ownersMain := ?_, ownersFin := ?_ }
      · rw [hins, semKeys_append, List.nodup_append]
        refine ⟨hs.keysNodup, List.nodup_singleton a, ?_⟩
        intro b hbk hbs
        rw [List.mem_singleton] at hbs
        subst hbs
        rw [← semHas_iff_mem, hfalse] at hbk
        cases hbk
      · intro hfin b hb
        rcases (semHas_insert_iff s.sems a b).mp hb with hba | hbs
        · subst hba
          show semCount (semInsert s.sems b) b
              + critCount (l ++ (⟨b, .waiting⟩ : DevT) :: r) b + heldN s b = 1
          rw [semCount_insert_self s.sems b hfalse, hcc b, hcrit0, hNotHeld]
        · have hneq : b ≠ a := by
            intro e
            rw [e, hfalse] at hbs
            cases hbs
          have h1 := hs.ownersMain hfin b hbs
          show semCount (semInsert s.sems a) b
              + critCount (l ++ (⟨a, .waiting⟩ : DevT) :: r) b + heldN s b = 1
          rw [semCount_insert_other s.sems a b hneq, hcc b]
          exact h1
      · intro hfin b hb
        have hni : s.scanPC ≠ .idle := by
          intro hidle
          rw [hidle] at hfin
          exact ScanPC.noConfusion hfin
        have hbs : semHas s.sems b = true := hs.snapKeys hni b hb
        have hneq : b ≠ a := by
          intro e
          rw [e, hfalse] at hbs
          cases hbs
        have h1 := hs.ownersFin hfin b hb
        show semCount (semInsert s.sems a) b
            + critCount (l ++ (⟨a, .waiting⟩ : DevT) :: r) b + heldN s b = 1
        rw [semCount_insert_other s.sems a b hneq, hcc b]
        exact h1
  | devAcq l r a hdevs hpos =>
    have hhasa : semHas s.sems a = true := by
      by_contra hc
      rw [Bool.not_eq_true] at hc
      rw [semCount_absent s.sems a hc] at hpos
      exact Nat.lt_irrefl 0 hpos
    have hcrit : ∀ b, critCount (l ++ (⟨a, .crit⟩ : DevT) :: r) b
        = critCount s.devs b + (if a = b then 1 else 0) := by
      intro b
      rw [hdevs, critCount_middle, critCount_middle]
      by_cases hab : a = b
      · subst hab
        simp
        omega
      · simp [hab]
    have hdevSem : ∀ d ∈ l ++ (⟨a, .crit⟩ : DevT) :: r,
        (d.pc = .waiting ∨ d.pc = .crit)
          → semHas (semUpd s.sems a (semCount s.sems a - 1)) d.addr = true := by
      intro d hd hpc
      rw [semHas_upd]
      rcases List.mem_append.mp hd with hdl | hdr
      · exact hs.devSem d (by rw [hdevs]; exact List.mem_append_left _ hdl) hpc
      · rcases List.mem_cons.mp hdr with rfl | hdr2
        · exact hhasa
        · exact hs.devSem d
            (by rw [hdevs]; exact List.mem_append_right _ (List.mem_cons_of_mem _ hdr2)) hpc
    have howners : ∀ b, semHas s.sems b = true →
        (owners s b = 1 →
          semCount (semUpd s.sems a (semCount s.sems a - 1)) b
            + critCount (l ++ (⟨a, .crit⟩ : DevT) :: r) b + heldN s b = 1) := by
      intro b hbs h1
      have h2 : semCount s.sems b + critCount s.devs b + heldN s b = 1 := h1
      rw [hcrit b]
      by_cases hab : a = b
      · subst hab
        rw [semCount_upd_self s.sems a _ hhasa]
        have hi : (if a = a then (1 : Nat) else 0) = 1 := if_pos rfl
        rw [hi]
        omega
      · rw [semCount_upd_other s.sems a b _ (Ne.symm hab)]
        have hi : (if a = b then (1 : Nat) else 0) = 0 := if_neg hab
        rw [hi]
        omega
    refine { kBound := hs.kBound, kZero := hs.kZero, kFull := hs.kFull,
             snapKeys := ?_, keysNodup := ?_, snapNodup := hs.snapNodup,
             devSem := hdevSem, ownersMain := ?_, ownersFin := ?_ }
    · intro hni b hb
      rw [semHas_upd]
      exact hs.snapKeys hni b hb
    · rw [semKeys_upd]
      exact hs.keysNodup
    · intro hfin b hb
      rw [semHas_upd] at hb
      exact howners b hb (hs.ownersMain hfin b hb)
    · intro hfin b hb
      have hni : s.scanPC ≠ .idle := by
        intro hidle
        rw [hidle] at hfin
        exact ScanPC.noConfusion hfin
      exact howners b (hs.snapKeys hni b hb) (hs.ownersFin hfin b hb)
  | devRel l r a hdevs =>
    have hhasa : semHas s.sems a = true := by
      refine hs.devSem ⟨a, .crit⟩ ?_ (Or.inr rfl)
      rw [hdevs]
      exact List.mem_append_right _ (List.mem_cons_self _ _)
    have hcritpos : critCount s.devs a
        = critCount l a + (1 + critCount r a) := by
      rw [hdevs, critCount_middle]
      simp
    have hcrit : ∀ b, critCount (l ++ (⟨a, .done⟩ : DevT) :: r) b + (if a = b then 1 else 0)
        = critCount s.devs b := by
      intro b
      rw [hdevs, critCount_middle, critCount_middle]
      by_cases hab : a = b
      · subst hab
        simp
        omega
      · simp [hab]
    have hdevSem : ∀ d ∈ l ++ (⟨a, .done⟩ : DevT) :: r,
        (d.pc = .waiting ∨ d.pc = .crit)
          → semHas (semUpd s.sems a (semCount s.sems a + 1)) d.addr = true := by
      intro d hd hpc
      rw [semHas_upd]
      rcases List.mem_append.mp hd with hdl | hdr
      · exact hs.devSem d (by rw [hdevs]; exact List.mem_append_left _ hdl) hpc
      · rcases List.mem_cons.mp hdr with rfl | hdr2
        · rcases hpc with h1 | h1 <;> exact DevPC.noConfusion h1
        · exact hs.devSem d
            (by rw [hdevs]; exact List.mem_append_right _ (List.mem_cons_of_mem _ hdr2)) hpc
    have howners : ∀ b, semHas s.sems b = true →
        (owners s b = 1 →
          semCount (semUpd s.sems a (semCount s.sems a + 1)) b
            + critCount (l ++ (⟨a, .done⟩ : DevT) :: r) b + heldN s b = 1) := by
      intro b hbs h1
      have h2 : semCount s.sems b + critCount s.devs b + heldN s b = 1 := h1
      have h3 := hcrit b
      by_cases hab : a = b
      · subst hab
        rw [semCount_upd_self s.sems a _ hhasa]
        have hi : (if a = a then (1 : Nat) else 0) = 1 := if_pos rfl
        rw [hi] at h3
        omega
      · rw [semCount_upd_other s.sems a b _ (Ne.symm hab)]
        have hi : (if a = b then (1 : Nat) else 0) = 0 := if_neg hab
        rw [hi] at h3
        omega
    refine { kBound := hs.kBound, kZero := hs.kZero, kFull := hs.kFull,
             snapKeys := ?_, keysNodup := ?_, snapNodup := hs.snapNodup,
             devSem := hdevSem, ownersMain := ?_, ownersFin := ?_ }
    · intro hni b hb
      rw [semHas_upd]
      exact hs.snapKeys hni b hb
    · rw [semKeys_upd]
      exact hs.keysNodup
    · intro hfin b hb
      rw [semHas_upd] at hb
      exact howners b hb (hs.ownersMain hfin b hb)
    · intro hfin b hb
      have hni : s.scanPC ≠ .idle := by
        intro hidle
        rw [hidle] at hfin
        exact ScanPC.noConfusion hfin
      exact howners b (hs.snapKeys hni b hb) (hs.ownersFin hfin b hb)
  | scanStart hpc hml =>
    refine { kBound := Nat.zero_le _, kZero := fun _ => rfl, kFull := ?_,
             snapKeys := ?_, keysNodup := hs.keysNodup, snapNodup := hs.keysNodup,
             devSem := hs.devSem, ownersMain := ?_, ownersFin := ?_ }
    · intro h1
      rcases h1 with h1 | h1 | h1 <;> exact ScanPC.noConfusion h1
    · intro _ b hb
      exact (semHas_iff_mem s.sems b).mpr hb
    · intro _ b hb
      have h1 := hs.ownersMain (by rw [hpc]; exact fun h2 => ScanPC.noConfusion h2) b hb
      have h2 : semCount s.sems b + critCount s.devs b + heldN s b = 1 := h1
      have hz : heldN s b = 0 := by simp [heldN, hs.kZero (Or.inl hpc)]
      have hz2 : (if b ∈ (semKeys s.sems).take 0 then (1 : Nat) else 0) = 0 := by simp
      show semCount s.sems b + critCount s.devs b
          + (if b ∈ (semKeys s.sems).take 0 then 1 else 0) = 1
      rw [hz2]
      rw [hz] at h2
      omega
    · intro h1
      exact ScanPC.noConfusion h1
  | scanAcqOne a hpc hget hpos =>
    have hhasa : semHas s.sems a = true := by
      by_contra hc
      rw [Bool.not_eq_true] at hc
      rw [semCount_absent s.sems a hc] at hpos
      exact Nat.lt_irrefl 0 hpos
    have hlt : s.scanK < s.snapshot.length := by
      rcases List.get?_eq_some.mp hget with ⟨h1, _⟩
      exact h1
    have hnotmem : a ∉ s.snapshot.take s.scanK :=
      not_mem_take_of_nodup s.snapshot s.scanK a hs.snapNodup hget
    refine { kBound := hlt, kZero := ?_, kFull := ?_, snapKeys := ?_,
             keysNodup := ?_, snapNodup := hs.snapNodup, devSem := ?_,
             ownersMain := ?_, ownersFin := ?_ }
    · intro h1
      rw [hpc] at h1
      rcases h1 with h1 | h1 <;> exact ScanPC.noConfusion h1
    · intro h1
      rw [hpc] at h1
      rcases h1 with h1 | h1 | h1 <;> exact ScanPC.noConfusion h1
    · intro hni b hb
      rw [semHas_upd]
      exact hs.snapKeys hni b hb
    · rw [semKeys_upd]
      exact hs.keysNodup
    · intro d hd hpcd
      rw [semHas_upd]
      exact hs.devSem d hd hpcd
    · intro hfin b hb
      rw [semHas_upd] at hb
      have h1 : semCount s.sems b + critCount s.devs b + heldN s b = 1 :=
        hs.ownersMain (by rw [hpc]; exact fun h2 => ScanPC.noConfusion h2) b hb
      show semCount (semUpd s.sems a (semCount s.sems a - 1)) b + critCount s.devs b
          + (if b ∈ s.snapshot.take (s.scanK + 1) then 1 else 0) = 1
      by_cases hab : b = a
      · subst hab
        rw [semCount_upd_self s.sems b _ hhasa]
        rw [if_pos ((mem_take_succ s.snapshot s.scanK b b hget).mpr (Or.inr rfl))]
        have hh : heldN s b = 0 := by
          simp [heldN, hnotmem]
        rw [hh] at h1
        omega
      · rw [semCount_upd_other s.sems a b _ hab]
        have hmem2 : (b ∈ s.snapshot.take (s.scanK + 1)) ↔ b ∈ s.snapshot.take s.scanK := by
          rw [mem_take_succ s.snapshot s.scanK a b hget]
          simp [hab]
        by_cases hbt : b ∈ s.snapshot.take s.scanK
        · rw [if_pos (hmem2.mpr hbt)]
          have hh : heldN s b = 1 := by simp [heldN, hbt]
          rw [hh] at h1
          omega
        · rw [if_neg (fun h2 => hbt (hmem2.mp h2))]
          have hh : heldN s b = 0 := by simp [heldN, hbt]
          rw [hh] at h1
          omega
    · intro hfin b hb
      rw [hpc] at hfin
      exact ScanPC.noConfusion hfin
  | scanEnter hpc hk =>
    refine { kBound := hs.kBound, kZero := ?_, kFull := fun _ => hk,
             snapKeys := ?_, keysNodup := hs.keysNodup, snapNodup := hs.snapNodup,
             devSem := hs.devSem, ownersMain := ?_, ownersFin := ?_ }
    · intro h1
      rcases h1 with h1 | h1 <;> exact ScanPC.noConfusion h1
    · intro _ b hb
      exact hs.snapKeys (by rw [hpc]; exact fun h2 => ScanPC.noConfusion h2) b hb
    · intro _ b hb
      exact hs.ownersMain (by rw [hpc]; exact fun h2 => ScanPC.noConfusion h2) b hb
    · intro h1
      exact ScanPC.noConfusion h1
  | scanExit hpc =>
    refine { kBound := hs.kBound, kZero := ?_, kFull := ?_,
             snapKeys := ?_, keysNodup := hs.keysNodup, snapNodup := hs.snapNodup,
             devSem := hs.devSem, ownersMain := ?_, ownersFin := ?_ }
    · intro h1
      rcases h1 with h1 | h1 <;> exact ScanPC.noConfusion h1
    · intro _
      exact hs.kFull (Or.inl hpc)
    · intro _ b hb
      exact hs.snapKeys (by rw [hpc]; exact fun h2 => ScanPC.noConfusion h2) b hb
    · intro _ b hb
      exact hs.ownersMain (by rw [hpc]; exact fun h2 => ScanPC.noConfusion h2) b hb
    · intro h1
      exact ScanPC.noConfusion h1
  | scanFinAcq hpc hml =>
    refine { kBound := hs.kBound, kZero := ?_, kFull := ?_,
             snapKeys := ?_, keysNodup := hs.keysNodup, snapNodup := hs.snapNodup,
             devSem := hs.devSem, ownersMain := ?_, ownersFin := ?_ }
    · intro h1
      rcases h1 with h1 | h1 <;> exact ScanPC.noConfusion h1
    · intro _
      exact hs.kFull (Or.inr (Or.inl hpc))
    · intro _ b hb
      exact hs.snapKeys (by rw [hpc]; exact fun h2 => ScanPC.noConfusion h2) b hb
    · intro _ b hb
      exact hs.ownersMain (by rw [hpc]; exact fun h2 => ScanPC.noConfusion h2) b hb
    · intro h1
      exact ScanPC.noConfusion h1
  | scanRelease hpc =>
    have hkfull : s.scanK = s.snapshot.length := hs.kFull (Or.inr (Or.inr hpc))
    refine { kBound := Nat.zero_le _, kZero := fun _ => rfl, kFull := ?_,
             snapKeys := ?_, keysNodup := ?_, snapNodup := hs.snapNodup,
             devSem := ?_, ownersMain := ?_, ownersFin := ?_ }
    · intro h1
      rcases h1 with h1 | h1 | h1 <;> exact ScanPC.noConfusion h1
    · intro _ b hb
      rw [semHas_incAll]
      exact hs.snapKeys (by rw [hpc]; exact fun h2 => ScanPC.noConfusion h2) b hb
    · rw [semKeys_incAll]
      exact hs.keysNodup
    · intro d hd hpcd
      rw [semHas_incAll]
      exact hs.devSem d hd hpcd
    · intro h1
      exact absurd rfl h1
    · intro _ b hb
      have hbs : semHas s.sems b = true :=
        hs.snapKeys (by rw [hpc]; exact fun h2 => ScanPC.noConfusion h2) b hb
      have h1 : semCount s.sems b + critCount s.devs b + heldN s b = 1 :=
        hs.ownersMain (by rw [hpc]; exact fun h2 => ScanPC.noConfusion h2) b hbs
      have hh : heldN s b = 1 := by
        have hmem : b ∈ s.snapshot.take s.scanK := by
          rw [hkfull, List.take_length]
          exact hb
        simp [heldN, hmem]
      have hz2 : (if b ∈ s.snapshot.take 0 then (1 : Nat) else 0) = 0 := by simp
      show semCount (semIncAll s.sems) b + critCount s.devs b
          + (if b ∈ s.snapshot.take 0 then 1 else 0) = 1
      rw [semCount_incAll s.sems b hbs, hz2]
      rw [hh] at h1
      omega

/-- The invariant holds in every reachable state. -/
theorem inv_reach (ds : List String) (s : Sys) (h : Reach (initSys ds) s) : Inv s := by
  induction h with
  | refl => exact inv_init ds
  | tail hr hstep ih => exact inv_step _ _ ih hstep

/-- C8: in every state reachable from process start, (a) while the scan
holds its composite acquisition, no device batch holds any snapshot
member (so the acquisition cannot have completed while one was held),
and every snapshot member has a zero counter, so a device acquire
against a pre-existing address is disabled; (b) when the scan has
finished, it holds no snapshot member and full ownership accounting of
every snapshot member is restored. -/
theorem c8_scan_arbitration (ds : List String) (s : Sys)
    (hreach : Reach (initSys ds) s) :
    (scanHoldsAll s →
      ∀ a ∈ s.snapshot, critCount s.devs a = 0 ∧ semCount s.sems a = 0) ∧
    (s.scanPC = .fin → s.scanK = 0 ∧ ∀ a ∈ s.snapshot, owners s a = 1) := by
  have hinv := inv_reach ds s hreach
  constructor
  · rintro ⟨hact, hk⟩ a ha
    have hni : s.scanPC ≠ .idle := by
      rcases hact with h | h | h | h <;> (rw [h]; exact fun h2 => ScanPC.noConfusion h2)
    have hnf : s.scanPC ≠ .fin := by
      rcases hact with h | h | h | h <;> (rw [h]; exact fun h2 => ScanPC.noConfusion h2)
    have hhas : semHas s.sems a = true := hinv.snapKeys hni a ha
    have h1 : semCount s.sems a + critCount s.devs a + heldN s a = 1 :=
      hinv.ownersMain hnf a hhas
    have hheld : heldN s a = 1 := by
      have hmem : a ∈ s.snapshot.take s.scanK := by
        rw [hk, List.take_length]
        exact ha
      simp [heldN, hmem]
    rw [hheld] at h1
    omega
  · intro hfin
    exact ⟨hinv.kZero (Or.inr hfin), hinv.ownersFin hfin⟩

/-- The state reached by: one device batch creates and releases nothing
yet (it is parked waiting), then the scan starts and acquires the one
existing lock. -/
def c8DemoState : Sys :=
  { mapLock := true, sems := [("aa", 0)], snapshot := ["aa"], scanK := 1,
    scanPC := .acq, devs := [⟨"aa", .waiting⟩] }

/-- Witness for C8: along a concrete five-state trace the scan reaches
its full hold and the snapshot member "aa" is then held by no device
batch and has no free permit. -/
theorem c8_scan_arbitration_witness :
    critCount c8DemoState.devs "aa" = 0 ∧ semCount c8DemoState.sems "aa" = 0 := by
  have hreach : Reach (initSys ["aa"]) c8DemoState :=
    Reach.tail (Reach.tail (Reach.tail (Reach.tail Reach.refl
      (Step.devMapAcq _ [] [] "aa" rfl rfl))
      (Step.devCreate _ [] [] "aa" rfl))
      (Step.scanStart _ rfl rfl))
      (Step.scanAcqOne _ "aa" rfl rfl Nat.one_pos)
  exact (c8_scan_arbitration ["aa"] c8DemoState hreach).1 ⟨Or.inl rfl, rfl⟩ "aa"
    (List.mem_singleton.mpr rfl)

end BLEBridge

